import Mathlib

/-!
Shallow embedding of the line editor in `rush-console/src/reader.rs`.

The Rust `Console` stores `line_buffer : String` and `cursor_coord : usize`.
Rust strings are UTF-8 byte sequences and `String::insert`, `String::remove`,
`line_buffer.len()` and the slice `&line_buffer[i..]` all work on BYTE
indices, panicking when an index is not a character boundary.  The buffer is
therefore modelled as a `List Nat` of UTF-8 bytes, and every fallible string
operation returns `Option` where `none` models a Rust panic.

Terminal interaction is modelled by the list of commands the code queues
(`queue!`/`execute!` arguments).  `terminal::size()?.0` and
`cursor::position()?.0` are inputs that the code re-queries on every call, so
the functions that use them take the query results `x_size`/`x_pos` as
arguments.
-/

namespace Rush

/-- UTF-8 encoding of a character, exactly what Rust pushes into the `String`
for a `char` (RFC 3629 encoding of the scalar value). -/
def utf8Bytes (c : Char) : List Nat :=
  let v := c.toNat
  if v < 0x80 then [v]
  else if v < 0x800 then [0xC0 + v / 0x40, 0x80 + v % 0x40]
  else if v < 0x10000 then
    [0xE0 + v / 0x1000, 0x80 + v / 0x40 % 0x40, 0x80 + v % 0x40]
  else
    [0xF0 + v / 0x40000, 0x80 + v / 0x1000 % 0x40, 0x80 + v / 0x40 % 0x40,
      0x80 + v % 0x40]

/-- UTF-8 bytes of a whole string, as in Rust's `str::as_bytes`. -/
def strBytes (s : String) : List Nat :=
  (s.data.map utf8Bytes).flatten

/-- Rust `str::is_char_boundary(i)`: true at 0, at the length, and at any
byte that is not a UTF-8 continuation byte (`0x80..0xBF`). -/
def isCharBoundary (bs : List Nat) (i : Nat) : Bool :=
  i == 0 ||
    match bs[i]? with
    | some b => decide (b < 0x80) || decide (0xC0 ≤ b)
    | none => i == bs.length

/-- Width of the UTF-8 character starting with lead byte `b` (what
`chars().next()` consumes in well-formed UTF-8). -/
def leadWidth (b : Nat) : Nat :=
  if b < 0x80 then 1 else if b < 0xE0 then 2 else if b < 0xF0 then 3 else 4

/-- Rust `String::insert(i, ch)`: panics (`none`) unless `i` is a character
boundary; otherwise splices the UTF-8 bytes of `ch` at byte index `i`. -/
def string_insert (bs : List Nat) (i : Nat) (ch : Char) : Option (List Nat) :=
  if isCharBoundary bs i then some (bs.take i ++ utf8Bytes ch ++ bs.drop i)
  else none

/-- Rust `String::remove(i)`: panics (`none`) unless `i` is a character
boundary strictly inside the string; otherwise removes the character
starting at byte index `i`. -/
def string_remove (bs : List Nat) (i : Nat) : Option (List Nat) :=
  match bs[i]? with
  | none => none
  | some b =>
    if isCharBoundary bs i then some (bs.take i ++ bs.drop (i + leadWidth b))
    else none

/-- Rust slice `&s[i..]`: panics (`none`) unless `i` is a character
boundary. -/
def string_slice_from (bs : List Nat) (i : Nat) : Option (List Nat) :=
  if isCharBoundary bs i then some (bs.drop i) else none

/-- Terminal commands queued through crossterm (`queue!`/`execute!`).
Only the commands the modelled functions queue are represented; `Print`
carries the UTF-8 bytes it writes. -/
inductive Command where
  | SavePosition
  | RestorePosition
  | Print (bytes : List Nat)
  | MoveRight (n : Nat)
  | MoveLeft (n : Nat)
  | MoveToNextLine (n : Nat)
  | MoveToPreviousLine (n : Nat)
  deriving DecidableEq, Repr

/-- The editor state of `Console`: the line buffer (UTF-8 bytes, as Rust's
`String` stores it) and the byte-index cursor `cursor_coord`. -/
structure Console where
  line_buffer : List Nat
  cursor_coord : Nat
  deriving DecidableEq, Repr

/-- `Console::new()`: empty buffer, cursor 0. -/
def initConsole : Console := ⟨[], 0⟩

/-- Crossterm key modifiers as the dispatcher matches them; `OTHER` stands
for any other modifier combination (ALT, CONTROL|SHIFT, ...). -/
inductive Modifiers where
  | NONE
  | SHIFT
  | CONTROL
  | OTHER
  deriving DecidableEq, Repr

/-- Crossterm key codes as the dispatcher matches them; `Other` stands for
any key code not named in the `match` (Esc, Tab, Home, F-keys, ...). -/
inductive KeyCode where
  | Char (c : Char)
  | Backspace
  | Left
  | Right
  | Enter
  | Other
  deriving DecidableEq, Repr

/-- Crossterm `Event`: the dispatcher only inspects `Key` events; the other
constructors (focus, mouse, paste, resize) fall through. -/
inductive Event where
  | Key (modifiers : Modifiers) (code : KeyCode)
  | FocusGained
  | FocusLost
  | Mouse
  | Paste (s : String)
  | Resize (w h : Nat)
  deriving DecidableEq, Repr

/-- `ReplAction`, the instruction `handle_event` returns to the REPL. -/
inductive ReplAction where
  | Return
  | Clear
  | Exit
  | Ignore
  deriving DecidableEq, Repr

/-- `Console::move_cursor_right`: queries terminal width `x_size` and
cursor column `x_pos`; at the last column it queues `MoveToNextLine(1)`,
otherwise `MoveRight(1)`. -/
def move_cursor_right (x_size x_pos : Nat) : List Command :=
  if x_pos == x_size - 1 then [Command.MoveToNextLine 1]
  else [Command.MoveRight 1]

/-- `Console::move_cursor_left`: queries terminal width `x_size` and cursor
column `x_pos`; at column 0 it queues `MoveToPreviousLine(1)` then
`MoveRight(x_size - 1)`, otherwise `MoveLeft(1)`. -/
def move_cursor_left (x_size x_pos : Nat) : List Command :=
  if x_pos == 0 then [Command.MoveToPreviousLine 1, Command.MoveRight (x_size - 1)]
  else [Command.MoveLeft 1]

/-- `Console::print_buffer_section(deletion_mode)`: queues `SavePosition`,
`Print(&line_buffer[cursor_coord..])`, `Print(deletion_char)` (a single
space in deletion mode, the empty string otherwise), `RestorePosition`.
`none` models the slice panicking off a character boundary. -/
def print_buffer_section (console : Console) (deletion_mode : Bool) :
    Option (List Command) :=
  match string_slice_from console.line_buffer console.cursor_coord with
  | none => none
  | some tail =>
    some [Command.SavePosition, Command.Print tail,
      Command.Print (if deletion_mode then [32] else []),
      Command.RestorePosition]

/-- `Console::insert_char`: inserts at `cursor_coord`, prints the buffer
section (cursor not yet advanced), increments `cursor_coord`, then queues
the move-right commands.  `x_size`/`x_pos` are the terminal queries made by
`move_cursor_right`. -/
def insert_char (console : Console) (ch : Char) (x_size x_pos : Nat) :
    Option (Console × List Command) :=
  match string_insert console.line_buffer console.cursor_coord ch with
  | none => none
  | some buf =>
    match print_buffer_section ⟨buf, console.cursor_coord⟩ false with
    | none => none
    | some printCmds =>
      some (⟨buf, console.cursor_coord + 1⟩,
        printCmds ++ move_cursor_right x_size x_pos)

/-- `Console::backspace_char`: decrements `cursor_coord`, removes the
character there, queues the move-left commands, then prints the buffer
section in deletion mode. -/
def backspace_char (console : Console) (x_size x_pos : Nat) :
    Option (Console × List Command) :=
  match string_remove console.line_buffer (console.cursor_coord - 1) with
  | none => none
  | some buf =>
    match print_buffer_section ⟨buf, console.cursor_coord - 1⟩ true with
    | none => none
    | some printCmds =>
      some (⟨buf, console.cursor_coord - 1⟩,
        move_cursor_left x_size x_pos ++ printCmds)

/-- `Console::handle_event`: the key dispatcher.  Returns the updated
console, the queued commands and the `ReplAction`; `none` models a panic in
the string operations. -/
def handle_event (console : Console) (event : Event) (x_size x_pos : Nat) :
    Option (Console × List Command × ReplAction) :=
  match event with
  | Event.Key mods code =>
    match mods, code with
    | Modifiers.NONE, KeyCode.Char ch =>
      (insert_char console ch x_size x_pos).map fun r =>
        (r.1, r.2, ReplAction.Ignore)
    | Modifiers.SHIFT, KeyCode.Char ch =>
      (insert_char console ch x_size x_pos).map fun r =>
        (r.1, r.2, ReplAction.Ignore)
    | Modifiers.NONE, KeyCode.Backspace =>
      if console.cursor_coord ≠ 0 then
        (backspace_char console x_size x_pos).map fun r =>
          (r.1, r.2, ReplAction.Ignore)
      else some (console, [], ReplAction.Ignore)
    | Modifiers.NONE, KeyCode.Left =>
      if console.cursor_coord ≠ 0 then
        some (⟨console.line_buffer, console.cursor_coord - 1⟩,
          move_cursor_left x_size x_pos, ReplAction.Ignore)
      else some (console, [], ReplAction.Ignore)
    | Modifiers.NONE, KeyCode.Right =>
      if console.cursor_coord ≠ console.line_buffer.length then
        some (⟨console.line_buffer, console.cursor_coord + 1⟩,
          move_cursor_right x_size x_pos, ReplAction.Ignore)
      else some (console, [], ReplAction.Ignore)
    | Modifiers.NONE, KeyCode.Enter =>
      if console.line_buffer ≠ [] then some (console, [], ReplAction.Return)
      else some (console, [], ReplAction.Ignore)
    | Modifiers.CONTROL, KeyCode.Char ch =>
      if ch = 'c' then some (console, [], ReplAction.Exit)
      else if ch = 'l' then some (console, [], ReplAction.Clear)
      else some (console, [], ReplAction.Ignore)
    | _, _ => some (console, [], ReplAction.Ignore)
  | _ => some (console, [], ReplAction.Ignore)

/-- Folds `handle_event` over a list of events, each paired with the
terminal-query results `x_size`/`x_pos` for that call; `none` as soon as a
step panics. -/
def runEvents : Console → List (Event × Nat × Nat) → Option Console
  | c, [] => some c
  | c, (e, xs, xp) :: rest =>
    match handle_event c e xs xp with
    | none => none
    | some (c2, _, _) => runEvents c2 rest

/-- One loop iteration's worth of terminal input to `Console::read`:
either the `execute!` flush fails, or the blocking `read()` of the next
event fails, or an event arrives (paired with the terminal-query results
its handling may use). -/
inductive IterInput where
  | flushErr
  | readErr
  | ev (e : Event) (x_size x_pos : Nat)
  deriving DecidableEq, Repr

/-- How a modelled `Console::read` call ends: a returned line, a propagated
I/O error, `std::process::exit`, a string-operation panic, or still blocked
in the loop when the supplied inputs run out. -/
inductive ReadOutcome where
  | ok (line : List Nat)
  | err
  | exited
  | panicked
  | pending
  deriving DecidableEq, Repr

/-- The loop of `Console::read`, one `IterInput` per iteration.  Returns the
outcome, the raw-mode flag at exit, and the final console state.  An
`Err` from flush or event-read propagates through `?` immediately, with no
raw-mode cleanup on that path, mirroring the source.  On `Return` the code
moves to the next line, disables raw mode, clones the buffer into `line`,
clears the buffer and zeroes the cursor before returning `Ok(line)`.  On
`Clear` it resets the buffer and cursor and re-prompts; on `Exit` it clears,
disables raw mode and exits the process.  Queue-only operations (prompt and
debug-text printing) are modelled as always succeeding. -/
def readLoop (console : Console) (raw : Bool) :
    List IterInput → ReadOutcome × Bool × Console
  | [] => (ReadOutcome.pending, raw, console)
  | IterInput.flushErr :: _ => (ReadOutcome.err, raw, console)
  | IterInput.readErr :: _ => (ReadOutcome.err, raw, console)
  | IterInput.ev e xs xp :: rest =>
    match handle_event console e xs xp with
    | none => (ReadOutcome.panicked, raw, console)
    | some (c2, _, ReplAction.Return) =>
      (ReadOutcome.ok c2.line_buffer, false, ⟨[], 0⟩)
    | some (_, _, ReplAction.Clear) => readLoop ⟨[], 0⟩ raw rest
    | some (c2, _, ReplAction.Exit) => (ReadOutcome.exited, false, c2)
    | some (c2, _, ReplAction.Ignore) => readLoop c2 raw rest

/-- `Console::read`: enables raw mode (failure propagates with raw mode
off), prompts, then runs the loop with raw mode on. -/
def read (enableOk : Bool) (console : Console) (inputs : List IterInput) :
    ReadOutcome × Bool × Console :=
  if enableOk then readLoop console true inputs
  else (ReadOutcome.err, false, console)

/-- The key/modifier combinations named by an arm of the dispatcher's
`match` other than the final wildcard.  `CONTROL` with a character other
than `'c'` or `'l'` falls through to the wildcard, so it is unmatched. -/
def eventMatched : Event → Bool
  | Event.Key Modifiers.NONE (KeyCode.Char _) => true
  | Event.Key Modifiers.SHIFT (KeyCode.Char _) => true
  | Event.Key Modifiers.NONE KeyCode.Backspace => true
  | Event.Key Modifiers.NONE KeyCode.Left => true
  | Event.Key Modifiers.NONE KeyCode.Right => true
  | Event.Key Modifiers.NONE KeyCode.Enter => true
  | Event.Key Modifiers.CONTROL (KeyCode.Char ch) => ch == 'c' || ch == 'l'
  | _ => false

/-- Effect of a relocation command on the physical cursor `(column, row)`.
`MoveToNextLine`/`MoveToPreviousLine` go to column 0 of the row below/above
(clamped at the top, as terminals do).  `SavePosition`, `RestorePosition`
and `Print` are treated as neutral; this semantics is only applied to the
output of the move functions, which queue relocation commands exclusively. -/
def applyCommand (pos : Nat × Nat) : Command → Nat × Nat
  | Command.MoveRight n => (pos.1 + n, pos.2)
  | Command.MoveLeft n => (pos.1 - n, pos.2)
  | Command.MoveToNextLine n => (0, pos.2 + n)
  | Command.MoveToPreviousLine n => (0, pos.2 - n)
  | _ => pos

/-- Runs a queued command list over a physical cursor position. -/
def runCommands (pos : Nat × Nat) (cmds : List Command) : Nat × Nat :=
  cmds.foldl applyCommand pos

/-! ### Helper lemmas -/

theorem isCharBoundary_le {bs : List Nat} {i : Nat}
    (h : isCharBoundary bs i = true) : i ≤ bs.length := by
  unfold isCharBoundary at h
  cases hbs : bs[i]? with
  | some b =>
    have hlt : i < bs.length := by
      by_contra hge
      rw [List.getElem?_eq_none (by omega)] at hbs
      exact Option.noConfusion hbs
    omega
  | none =>
    rw [hbs] at h
    simp only [Bool.or_eq_true, beq_iff_eq] at h
    rcases h with h | h <;> omega

theorem utf8Bytes_length_pos (ch : Char) : 1 ≤ (utf8Bytes ch).length := by
  unfold utf8Bytes
  dsimp only
  split
  · simp
  split
  · simp
  split <;> simp

theorem string_insert_eq {bs : List Nat} {i : Nat} {ch : Char} {bs2 : List Nat}
    (h : string_insert bs i ch = some bs2) :
    i ≤ bs.length ∧ bs2 = bs.take i ++ utf8Bytes ch ++ bs.drop i := by
  unfold string_insert at h
  split at h
  · next hb =>
    injection h with h
    exact ⟨isCharBoundary_le hb, h.symm⟩
  · exact Option.noConfusion h

theorem string_remove_eq {bs : List Nat} {i : Nat} {bs2 : List Nat}
    (h : string_remove bs i = some bs2) :
    i < bs.length ∧ i ≤ bs2.length := by
  unfold string_remove at h
  split at h
  · exact Option.noConfusion h
  next b hbs =>
    have hlt : i < bs.length := by
      by_contra hge
      rw [List.getElem?_eq_none (by omega)] at hbs
      exact Option.noConfusion hbs
    split at h
    · injection h with h
      subst h
      refine ⟨hlt, ?_⟩
      simp only [List.length_append, List.length_take, List.length_drop]
      omega
    · exact Option.noConfusion h

theorem print_buffer_section_eq {c : Console} {dm : Bool}
    {cmds : List Command} (h : print_buffer_section c dm = some cmds) :
    cmds = [Command.SavePosition,
      Command.Print (c.line_buffer.drop c.cursor_coord),
      Command.Print (if dm then [32] else []), Command.RestorePosition] := by
  unfold print_buffer_section at h
  split at h
  · exact Option.noConfusion h
  next tail hsl =>
    injection h with h
    unfold string_slice_from at hsl
    split at hsl
    · injection hsl with hsl
      subst hsl
      exact h.symm
    · exact Option.noConfusion hsl

theorem drop_splice {bs : List Nat} {i : Nat} (h : i ≤ bs.length)
    (u : List Nat) : (bs.take i ++ u ++ bs.drop i).drop i = u ++ bs.drop i := by
  rw [List.append_assoc]
  exact List.drop_left' (by rw [List.length_take]; omega)

theorem insert_char_eq {c : Console} {ch : Char} {xs xp : Nat} {c2 : Console}
    {cmds : List Command} (h : insert_char c ch xs xp = some (c2, cmds)) :
    c.cursor_coord ≤ c.line_buffer.length ∧
    c2.line_buffer = c.line_buffer.take c.cursor_coord ++ utf8Bytes ch ++
      c.line_buffer.drop c.cursor_coord ∧
    c2.cursor_coord = c.cursor_coord + 1 ∧
    cmds = [Command.SavePosition,
        Command.Print (c2.line_buffer.drop c.cursor_coord),
        Command.Print [], Command.RestorePosition] ++
      move_cursor_right xs xp := by
  unfold insert_char at h
  split at h
  · exact Option.noConfusion h
  next buf hins =>
    split at h
    · exact Option.noConfusion h
    next printCmds hp =>
      obtain ⟨hle, hbuf⟩ := string_insert_eq hins
      have hcmds := print_buffer_section_eq hp
      simp only [Option.some.injEq, Prod.mk.injEq] at h
      obtain ⟨hc2, hcl⟩ := h
      subst hc2
      subst hcl
      refine ⟨hle, hbuf, rfl, ?_⟩
      rw [hcmds]
      rfl

theorem backspace_char_eq {c : Console} {xs xp : Nat} {c2 : Console}
    {cmds : List Command} (h : backspace_char c xs xp = some (c2, cmds)) :
    c.cursor_coord - 1 < c.line_buffer.length ∧
    c2.cursor_coord = c.cursor_coord - 1 ∧
    c2.cursor_coord ≤ c2.line_buffer.length ∧
    cmds = move_cursor_left xs xp ++
      [Command.SavePosition,
        Command.Print (c2.line_buffer.drop c2.cursor_coord),
        Command.Print [32], Command.RestorePosition] := by
  unfold backspace_char at h
  split at h
  · exact Option.noConfusion h
  next buf hrem =>
    split at h
    · exact Option.noConfusion h
    next printCmds hp =>
      obtain ⟨hlt, hle⟩ := string_remove_eq hrem
      have hcmds := print_buffer_section_eq hp
      simp only [Option.some.injEq, Prod.mk.injEq] at h
      obtain ⟨hc2, hcl⟩ := h
      subst hc2
      subst hcl
      refine ⟨hlt, rfl, hle, ?_⟩
      rw [hcmds]
      rfl

theorem insert_char_inv {c : Console} {ch : Char} {xs xp : Nat}
    {c2 : Console} {cmds : List Command}
    (h : insert_char c ch xs xp = some (c2, cmds)) :
    c2.cursor_coord ≤ c2.line_buffer.length := by
  obtain ⟨hle, hbuf, hcur, -⟩ := insert_char_eq h
  have hu := utf8Bytes_length_pos ch
  rw [hcur, hbuf]
  simp only [List.length_append, List.length_take, List.length_drop]
  omega

theorem unchanged_inv {c c2 : Console} {cmds : List Command}
    {a a2 : ReplAction}
    (hinv : c.cursor_coord ≤ c.line_buffer.length)
    (h : (some (c, ([] : List Command), a) :
      Option (Console × List Command × ReplAction)) = some (c2, cmds, a2)) :
    c2.cursor_coord ≤ c2.line_buffer.length := by
  simp only [Option.some.injEq, Prod.mk.injEq] at h
  obtain ⟨h1, -, -⟩ := h
  exact h1 ▸ hinv

theorem map_insert_inv {c : Console} {ch : Char} {xs xp : Nat}
    {c2 : Console} {cmds : List Command} {a : ReplAction}
    (h : (insert_char c ch xs xp).map
      (fun r => (r.1, r.2, ReplAction.Ignore)) = some (c2, cmds, a)) :
    c2.cursor_coord ≤ c2.line_buffer.length := by
  rw [Option.map_eq_some'] at h
  obtain ⟨⟨c3, cmds3⟩, hic, hf⟩ := h
  simp only [Prod.mk.injEq] at hf
  obtain ⟨h1, -, -⟩ := hf
  exact h1 ▸ insert_char_inv hic

theorem map_backspace_inv {c : Console} {xs xp : Nat}
    {c2 : Console} {cmds : List Command} {a : ReplAction}
    (h : (backspace_char c xs xp).map
      (fun r => (r.1, r.2, ReplAction.Ignore)) = some (c2, cmds, a)) :
    c2.cursor_coord ≤ c2.line_buffer.length := by
  rw [Option.map_eq_some'] at h
  obtain ⟨⟨c3, cmds3⟩, hbc, hf⟩ := h
  simp only [Prod.mk.injEq] at hf
  obtain ⟨h1, -, -⟩ := hf
  obtain ⟨-, -, hle, -⟩ := backspace_char_eq hbc
  exact h1 ▸ hle

theorem handle_event_inv {c : Console} {e : Event} {xs xp : Nat}
    {c2 : Console} {cmds : List Command} {a : ReplAction}
    (hinv : c.cursor_coord ≤ c.line_buffer.length)
    (h : handle_event c e xs xp = some (c2, cmds, a)) :
    c2.cursor_coord ≤ c2.line_buffer.length := by
  cases e with
  | Key mods code =>
    cases mods with
    | NONE =>
      cases code with
      | Char ch => exact map_insert_inv h
      | Backspace =>
        simp only [handle_event] at h
        split at h
        · exact map_backspace_inv h
        · exact unchanged_inv hinv h
      | Left =>
        simp only [handle_event] at h
        split at h
        · simp only [Option.some.injEq, Prod.mk.injEq] at h
          obtain ⟨h1, -, -⟩ := h
          rw [← h1]
          show c.cursor_coord - 1 ≤ c.line_buffer.length
          omega
        · exact unchanged_inv hinv h
      | Right =>
        simp only [handle_event] at h
        split at h
        · next hne =>
          simp only [Option.some.injEq, Prod.mk.injEq] at h
          obtain ⟨h1, -, -⟩ := h
          rw [← h1]
          show c.cursor_coord + 1 ≤ c.line_buffer.length
          omega
        · exact unchanged_inv hinv h
      | Enter =>
        simp only [handle_event] at h
        split at h
        · exact unchanged_inv hinv h
        · exact unchanged_inv hinv h
      | Other => exact unchanged_inv hinv h
    | SHIFT =>
      cases code with
      | Char ch => exact map_insert_inv h
      | Backspace => exact unchanged_inv hinv h
      | Left => exact unchanged_inv hinv h
      | Right => exact unchanged_inv hinv h
      | Enter => exact unchanged_inv hinv h
      | Other => exact unchanged_inv hinv h
    | CONTROL =>
      cases code with
      | Char ch =>
        simp only [handle_event] at h
        split at h
        · exact unchanged_inv hinv h
        split at h
        · exact unchanged_inv hinv h
        · exact unchanged_inv hinv h
      | Backspace => exact unchanged_inv hinv h
      | Left => exact unchanged_inv hinv h
      | Right => exact unchanged_inv hinv h
      | Enter => exact unchanged_inv hinv h
      | Other => exact unchanged_inv hinv h
    | OTHER => cases code <;> exact unchanged_inv hinv h
  | FocusGained => exact unchanged_inv hinv h
  | FocusLost => exact unchanged_inv hinv h
  | Mouse => exact unchanged_inv hinv h
  | Paste s => exact unchanged_inv hinv h
  | Resize w hh => exact unchanged_inv hinv h

theorem runEvents_inv {evs : List (Event × Nat × Nat)} {c c2 : Console}
    (hinv : c.cursor_coord ≤ c.line_buffer.length)
    (h : runEvents c evs = some c2) :
    c2.cursor_coord ≤ c2.line_buffer.length := by
  induction evs generalizing c with
  | nil =>
    unfold runEvents at h
    injection h with h
    exact h ▸ hinv
  | cons p rest ih =>
    obtain ⟨e, xs, xp⟩ := p
    unfold runEvents at h
    split at h
    · exact Option.noConfusion h
    next c3 cmds3 a3 hhe => exact ih (handle_event_inv hinv hhe) h

theorem some_action_eq {c c2 : Console} {x cmds : List Command}
    {a1 a2 : ReplAction}
    (h : (some (c, x, a1) : Option (Console × List Command × ReplAction)) =
      some (c2, cmds, a2)) : a1 = a2 := by
  simp only [Option.some.injEq, Prod.mk.injEq] at h
  exact h.2.2

theorem map_action_eq {o : Option (Console × List Command)} {c2 : Console}
    {cmds : List Command} {a a2 : ReplAction}
    (h : o.map (fun r => (r.1, r.2, a)) = some (c2, cmds, a2)) : a = a2 := by
  rw [Option.map_eq_some'] at h
  obtain ⟨r, -, hf⟩ := h
  simp only [Prod.mk.injEq] at hf
  exact hf.2.2

/-! ### Claims -/

/-- C1: starting from the empty buffer with cursor 0, after any sequence of
key events processed by `handle_event` (inserts, backspaces, left/right
moves, in any order) that completes without a panic, the invariant
`0 ≤ cursor_coord ≤ line_buffer.len()` holds.  Since the event list is
universally quantified, the invariant holds after every intermediate
operation as well (instantiate with the corresponding prefix). -/
theorem cursor_invariant_holds (evs : List (Event × Nat × Nat)) (c : Console)
    (h : runEvents initConsole evs = some c) :
    0 ≤ c.cursor_coord ∧ c.cursor_coord ≤ c.line_buffer.length :=
  ⟨Nat.zero_le _, runEvents_inv (Nat.le_refl 0) h⟩

/-- C1 witness: one insertion of `'a'` from the initial state. -/
theorem cursor_invariant_holds_witness :
    0 ≤ (Console.mk [97] 1).cursor_coord ∧
      (Console.mk [97] 1).cursor_coord ≤
        (Console.mk [97] 1).line_buffer.length :=
  cursor_invariant_holds
    [(Event.Key Modifiers.NONE (KeyCode.Char 'a'), 80, 0)]
    (Console.mk [97] 1) (by decide)

/-- C2: the cursor is NOT character-indexed: `cursor_coord` is a byte index
(`String::insert`, `String::remove`, `len()` and slicing all take byte
offsets), but the dispatcher advances it by exactly 1 per inserted
character.  Inserting the 2-byte character `'é'` into the empty buffer
leaves `cursor_coord = 1` pointing inside its UTF-8 encoding `[195, 169]`
(second conjunct), and the next insertion panics at `String::insert`
because byte index 1 is not a character boundary (first conjunct). -/
theorem byte_indexed_insert_panics :
    runEvents initConsole
      [(Event.Key Modifiers.NONE (KeyCode.Char 'é'), 80, 0),
        (Event.Key Modifiers.NONE (KeyCode.Char 'a'), 80, 1)] = none ∧
    runEvents initConsole
      [(Event.Key Modifiers.NONE (KeyCode.Char 'é'), 80, 0)] =
      some (Console.mk [195, 169] 1) := by decide

/-- C3: the claim that raw mode is disabled before an I/O error is
propagated is false for the code: every `?` in `Console::read` returns the
error immediately with no cleanup.  When raw mode was enabled and the
first event read fails, the modelled `read` propagates the error with the
raw-mode flag still `true`. -/
theorem raw_mode_left_enabled_on_read_error :
    read true initConsole [IterInput.readErr] =
      (ReadOutcome.err, true, initConsole) := by decide

/-- C4: typing the characters of `"cd /tmp"` one at a time into the empty
buffer and pressing Enter makes `read` return the line `"cd /tmp"`, with
the internal buffer empty and the cursor at 0 immediately afterwards. -/
theorem round_trip_cd_tmp :
    read true initConsole
      (("cd /tmp".data.map fun ch =>
          IterInput.ev (Event.Key Modifiers.NONE (KeyCode.Char ch)) 80 0) ++
        [IterInput.ev (Event.Key Modifiers.NONE KeyCode.Enter) 80 0]) =
      (ReadOutcome.ok (strBytes "cd /tmp"), false, initConsole) := by decide

/-- C5: with buffer `"abc"` and cursor 1, inserting `'x'` yields buffer
`"axbc"` and cursor 2. -/
theorem insert_mid_buffer :
    (insert_char (Console.mk (strBytes "abc") 1) 'x' 80 5).map
      (fun r => (r.1.line_buffer, r.1.cursor_coord)) =
      some (strBytes "axbc", 2) := by decide

/-- C6 counterexample: the claim says the printed tail starts at the NEW
(post-increment) cursor offset, i.e. only the original text shifted right
by one.  With buffer `"ab"`, cursor 1, inserting `'x'`: the code queues
`Print "xb"` (the tail from the pre-increment offset, inserted character
included), which differs from the claimed sequence whose print would be
`(strBytes "axb").drop 2 = "b"`. -/
theorem insertion_tail_counterexample :
    (insert_char (Console.mk (strBytes "ab") 1) 'x' 80 3).map
        (fun r => r.2) =
      some [Command.SavePosition, Command.Print (strBytes "xb"),
        Command.Print [], Command.RestorePosition, Command.MoveRight 1] ∧
    (insert_char (Console.mk (strBytes "ab") 1) 'x' 80 3).map
        (fun r => r.2) ≠
      some ([Command.SavePosition,
        Command.Print ((strBytes "axb").drop 2), Command.RestorePosition] ++
        move_cursor_right 80 3) := by decide

/-- C6 (amended): on every insertion that completes without a panic, the
queued command sequence is: save the physical position; print the buffer's
tail starting at the PRE-increment cursor offset — the inserted character
followed by the original tail (not the whole line); an empty print; restore
the physical position; then the advance-right commands, in that order. -/
theorem insertion_queued_commands (c : Console) (ch : Char) (xs xp : Nat)
    (c2 : Console) (cmds : List Command)
    (h : insert_char c ch xs xp = some (c2, cmds)) :
    c2.cursor_coord = c.cursor_coord + 1 ∧
    cmds = [Command.SavePosition,
        Command.Print (utf8Bytes ch ++ c.line_buffer.drop c.cursor_coord),
        Command.Print [], Command.RestorePosition] ++
      move_cursor_right xs xp := by
  obtain ⟨hle, hbuf, hcur, hcmds⟩ := insert_char_eq h
  refine ⟨hcur, ?_⟩
  rw [hcmds, hbuf, drop_splice hle]

/-- C6 witness: buffer `"ab"`, cursor 1, insert `'x'` at width 80,
column 3. -/
theorem insertion_queued_commands_witness :
    (Console.mk [97, 120, 98] 2).cursor_coord =
      (Console.mk [97, 98] 1).cursor_coord + 1 ∧
    [Command.SavePosition, Command.Print [120, 98], Command.Print [],
        Command.RestorePosition, Command.MoveRight 1] =
      [Command.SavePosition,
        Command.Print (utf8Bytes 'x' ++
          (Console.mk [97, 98] 1).line_buffer.drop
            (Console.mk [97, 98] 1).cursor_coord),
        Command.Print [], Command.RestorePosition] ++
      move_cursor_right 80 3 :=
  insertion_queued_commands (Console.mk [97, 98] 1) 'x' 80 3
    (Console.mk [97, 120, 98] 2)
    [Command.SavePosition, Command.Print [120, 98], Command.Print [],
      Command.RestorePosition, Command.MoveRight 1] (by decide)

/-- C7: on every deletion before the cursor that completes without a panic,
the queued sequence moves the physical cursor left first (the
`move_cursor_left` commands precede the reprint), and the reprint is the
tail starting at the new (decremented) cursor offset followed by exactly
one trailing space (`Print [32]`). -/
theorem backspace_queued_commands (c : Console) (xs xp : Nat)
    (c2 : Console) (cmds : List Command)
    (h : backspace_char c xs xp = some (c2, cmds)) :
    c2.cursor_coord = c.cursor_coord - 1 ∧
    cmds = move_cursor_left xs xp ++
      [Command.SavePosition,
        Command.Print (c2.line_buffer.drop c2.cursor_coord),
        Command.Print [32], Command.RestorePosition] := by
  obtain ⟨-, hcur, -, hcmds⟩ := backspace_char_eq h
  exact ⟨hcur, hcmds⟩

/-- C7 witness: buffer `"abc"`, cursor 3, backspace at width 80,
column 5. -/
theorem backspace_queued_commands_witness :
    (Console.mk [97, 98] 2).cursor_coord =
      (Console.mk [97, 98, 99] 3).cursor_coord - 1 ∧
    [Command.MoveLeft 1, Command.SavePosition, Command.Print [],
        Command.Print [32], Command.RestorePosition] =
      move_cursor_left 80 5 ++
        [Command.SavePosition,
          Command.Print ((Console.mk [97, 98] 2).line_buffer.drop
            (Console.mk [97, 98] 2).cursor_coord),
          Command.Print [32], Command.RestorePosition] :=
  backspace_queued_commands (Console.mk [97, 98, 99] 3) 80 5
    (Console.mk [97, 98] 2)
    [Command.MoveLeft 1, Command.SavePosition, Command.Print [],
      Command.Print [32], Command.RestorePosition] (by decide)

/-- C8: an unmodified Enter on an empty buffer is ignored (no `Return`,
buffer, cursor and queue unchanged), and a `Return` action is produced only
when the buffer is non-empty. -/
theorem enter_requires_nonempty_buffer (c : Console) (e : Event)
    (xs xp : Nat) (c2 : Console) (cmds : List Command) (a : ReplAction)
    (h : handle_event c e xs xp = some (c2, cmds, a)) :
    (c.line_buffer = [] ∧ e = Event.Key Modifiers.NONE KeyCode.Enter →
      c2 = c ∧ cmds = [] ∧ a = ReplAction.Ignore) ∧
    (a = ReplAction.Return → c.line_buffer ≠ []) := by
  constructor
  · rintro ⟨hbuf, rfl⟩
    have hev : handle_event c (Event.Key Modifiers.NONE KeyCode.Enter)
        xs xp = some (c, [], ReplAction.Ignore) := by
      simp [handle_event, hbuf]
    rw [hev] at h
    simp only [Option.some.injEq, Prod.mk.injEq] at h
    obtain ⟨h1, h2, h3⟩ := h
    exact ⟨h1.symm, h2.symm, h3.symm⟩
  · intro ha
    subst ha
    cases e with
    | Key mods code =>
      cases mods with
      | NONE =>
        cases code with
        | Char ch => exact absurd (map_action_eq h) (by decide)
        | Backspace =>
          simp only [handle_event] at h
          split at h
          · exact absurd (map_action_eq h) (by decide)
          · exact absurd (some_action_eq h) (by decide)
        | Left =>
          simp only [handle_event] at h
          split at h <;> exact absurd (some_action_eq h) (by decide)
        | Right =>
          simp only [handle_event] at h
          split at h <;> exact absurd (some_action_eq h) (by decide)
        | Enter =>
          simp only [handle_event] at h
          split at h
          · next hne => exact hne
          · exact absurd (some_action_eq h) (by decide)
        | Other => exact absurd (some_action_eq h) (by decide)
      | SHIFT =>
        cases code with
        | Char ch => exact absurd (map_action_eq h) (by decide)
        | Backspace => exact absurd (some_action_eq h) (by decide)
        | Left => exact absurd (some_action_eq h) (by decide)
        | Right => exact absurd (some_action_eq h) (by decide)
        | Enter => exact absurd (some_action_eq h) (by decide)
        | Other => exact absurd (some_action_eq h) (by decide)
      | CONTROL =>
        cases code with
        | Char ch =>
          simp only [handle_event] at h
          split at h
          · exact absurd (some_action_eq h) (by decide)
          split at h
          · exact absurd (some_action_eq h) (by decide)
          · exact absurd (some_action_eq h) (by decide)
        | Backspace => exact absurd (some_action_eq h) (by decide)
        | Left => exact absurd (some_action_eq h) (by decide)
        | Right => exact absurd (some_action_eq h) (by decide)
        | Enter => exact absurd (some_action_eq h) (by decide)
        | Other => exact absurd (some_action_eq h) (by decide)
      | OTHER => cases code <;> exact absurd (some_action_eq h) (by decide)
    | FocusGained => exact absurd (some_action_eq h) (by decide)
    | FocusLost => exact absurd (some_action_eq h) (by decide)
    | Mouse => exact absurd (some_action_eq h) (by decide)
    | Paste s => exact absurd (some_action_eq h) (by decide)
    | Resize w hh => exact absurd (some_action_eq h) (by decide)

/-- C8 witness: empty buffer, unmodified Enter. -/
theorem enter_requires_nonempty_buffer_witness :
    (initConsole.line_buffer = [] ∧
        Event.Key Modifiers.NONE KeyCode.Enter =
          Event.Key Modifiers.NONE KeyCode.Enter →
      initConsole = initConsole ∧ ([] : List Command) = [] ∧
        ReplAction.Ignore = ReplAction.Ignore) ∧
    (ReplAction.Ignore = ReplAction.Return →
      initConsole.line_buffer ≠ []) :=
  enter_requires_nonempty_buffer initConsole
    (Event.Key Modifiers.NONE KeyCode.Enter) 80 0 initConsole []
    ReplAction.Ignore (by decide)

/-- C9: for terminal width `W` (re-queried each call, hence a parameter of
each call): moving right from column `W - 1` lands at column 0 of the next
row, otherwise one column right; moving left from column 0 lands at column
`W - 1` of the previous row, otherwise one column left. -/
theorem cursor_wrap_behavior (W x r : Nat) (_hW : 1 ≤ W) (_hr : 1 ≤ r) :
    (x = W - 1 →
      runCommands (x, r) (move_cursor_right W x) = (0, r + 1)) ∧
    (x ≠ W - 1 →
      runCommands (x, r) (move_cursor_right W x) = (x + 1, r)) ∧
    runCommands (0, r) (move_cursor_left W 0) = (W - 1, r - 1) ∧
    (x ≠ 0 → runCommands (x, r) (move_cursor_left W x) = (x - 1, r)) := by
  refine ⟨?_, ?_, ?_, ?_⟩
  · intro hx
    simp [move_cursor_right, hx, runCommands, applyCommand]
  · intro hx
    simp [move_cursor_right, hx, runCommands, applyCommand]
  · simp [move_cursor_left, runCommands, applyCommand]
  · intro hx
    simp [move_cursor_left, hx, runCommands, applyCommand]

/-- C9 witness: width 80, column 79 (last column), row 1. -/
theorem cursor_wrap_behavior_witness :
    (79 = 80 - 1 →
      runCommands (79, 1) (move_cursor_right 80 79) = (0, 1 + 1)) ∧
    (79 ≠ 80 - 1 →
      runCommands (79, 1) (move_cursor_right 80 79) = (79 + 1, 1)) ∧
    runCommands (0, 1) (move_cursor_left 80 0) = (80 - 1, 1 - 1) ∧
    (79 ≠ 0 → runCommands (79, 1) (move_cursor_left 80 79) = (79 - 1, 1)) :=
  cursor_wrap_behavior 80 79 1 (by decide) (by decide)

/-- C10: every non-key event (focus, mouse, paste, resize) and every key
event that no dispatcher arm matches yields the `Ignore` action with the
buffer, the cursor and the command queue unchanged. -/
theorem unmatched_events_ignored (c : Console) (e : Event) (xs xp : Nat)
    (h : eventMatched e = false) :
    handle_event c e xs xp = some (c, [], ReplAction.Ignore) := by
  cases e with
  | Key mods code =>
    cases mods with
    | NONE =>
      cases code with
      | Char ch => exact Bool.noConfusion h
      | Backspace => exact Bool.noConfusion h
      | Left => exact Bool.noConfusion h
      | Right => exact Bool.noConfusion h
      | Enter => exact Bool.noConfusion h
      | Other => rfl
    | SHIFT =>
      cases code with
      | Char ch => exact Bool.noConfusion h
      | Backspace => rfl
      | Left => rfl
      | Right => rfl
      | Enter => rfl
      | Other => rfl
    | CONTROL =>
      cases code with
      | Char ch =>
        simp only [eventMatched, Bool.or_eq_false_iff,
          beq_eq_false_iff_ne, ne_eq] at h
        obtain ⟨h1, h2⟩ := h
        simp [handle_event, h1, h2]
      | Backspace => rfl
      | Left => rfl
      | Right => rfl
      | Enter => rfl
      | Other => rfl
    | OTHER => cases code <;> rfl
  | FocusGained => rfl
  | FocusLost => rfl
  | Mouse => rfl
  | Paste s => rfl
  | Resize w hh => rfl

/-- C10 witness: a resize event with a non-empty buffer. -/
theorem unmatched_events_ignored_witness :
    handle_event (Console.mk [97] 1) (Event.Resize 80 24) 5 5 =
      some (Console.mk [97] 1, [], ReplAction.Ignore) :=
  unmatched_events_ignored (Console.mk [97] 1) (Event.Resize 80 24) 5 5
    (by decide)

end Rush
